import Mathlib

/-!
Verification of the LibreKPI model layer (src/librekpi/model.py).

The module targets Python 2 (its docstrings speak of `basestring` and it
re-decodes `hexdigest()` output), so the embedding identifies `str` with byte
strings: a Python string is a `List Nat` of code points (bytes, for the ASCII
data handled here), and `/` on integers is floor division (`Int.fdiv`).

The embedding covers, translated line by line from the source:
  * `base64.b64encode` / `base64.b64decode` on byte lists;
  * `hashlib.sha256` (padding, message schedule, compression, `hexdigest`);
  * the `User` credential code: the `salt` hybrid property, the name-mangled
    `__encrypt_password`, the `password` setter and `validate_password`;
  * the `JSONEncodedDict` / `JSONEncodedList` column codec together with a
    model of `json.dumps` / `json.loads` (default separators and
    `ensure_ascii`) on the float-free fragment of JSON;
  * `User.age` with `calendar.leapdays` and the proleptic-Gregorian date
    arithmetic of `datetime.date`.

Effects are made explicit: `os.urandom(8)` is an extra byte-list argument,
`datetime.utcnow()` is an extra instant argument, a raised exception is
`Option.none`, and the object mutation done by the `salt` getter is explicit
state passing on the `User` record.
-/

set_option maxRecDepth 100000

/-- A Python 2 `str`: a list of byte / code-point values. -/
abbrev PyStr := List Nat

/-- Convenience: turn a Lean string literal into the `PyStr` of its
code points. -/
def pyS (s : String) : PyStr := s.data.map Char.toNat

/-! ## base64 (`base64.b64encode` / `base64.b64decode`) -/

/-- The standard base64 alphabet: 6-bit value to character. -/
def sixToChar (n : Nat) : Nat :=
  if n < 26 then 65 + n
  else if n < 52 then 97 + (n - 26)
  else if n < 62 then 48 + (n - 52)
  else if n = 62 then 43
  else 47

/-- Character to 6-bit value; `none` for a character outside the alphabet. -/
def charToSix (c : Nat) : Option Nat :=
  if 65 ≤ c ∧ c ≤ 90 then some (c - 65)
  else if 97 ≤ c ∧ c ≤ 122 then some (26 + (c - 97))
  else if 48 ≤ c ∧ c ≤ 57 then some (52 + (c - 48))
  else if c = 43 then some 62
  else if c = 47 then some 63
  else none

/-- `base64.b64encode`: bytes to base64 text, three bytes per four
characters, `=`-padded. -/
def b64encode : List Nat → PyStr
  | [] => []
  | [b1] =>
    let n := b1 * 65536
    [sixToChar (n / 262144 % 64), sixToChar (n / 4096 % 64), 61, 61]
  | [b1, b2] =>
    let n := b1 * 65536 + b2 * 256
    [sixToChar (n / 262144 % 64), sixToChar (n / 4096 % 64),
     sixToChar (n / 64 % 64), 61]
  | b1 :: b2 :: b3 :: rest =>
    let n := b1 * 65536 + b2 * 256 + b3
    sixToChar (n / 262144 % 64) :: sixToChar (n / 4096 % 64) ::
      sixToChar (n / 64 % 64) :: sixToChar (n % 64) :: b64encode rest

/-- `base64.b64decode`: base64 text to bytes; `none` models the
`binascii.Error` raised on malformed input.  As in CPython, the spare bits
of a padded final group are discarded without validation. -/
def b64decode : PyStr → Option (List Nat)
  | [] => some []
  | c1 :: c2 :: c3 :: c4 :: rest =>
    match charToSix c1, charToSix c2 with
    | some s1, some s2 =>
      if c3 = 61 then
        if c4 = 61 ∧ rest = [] then some [s1 * 4 + s2 / 16] else none
      else
        match charToSix c3 with
        | some s3 =>
          if c4 = 61 then
            if rest = [] then some [s1 * 4 + s2 / 16, (s2 % 16) * 16 + s3 / 4]
            else none
          else
            match charToSix c4 with
            | some s4 =>
              match b64decode rest with
              | some tail =>
                some ((s1 * 4 + s2 / 16) :: ((s2 % 16) * 16 + s3 / 4) ::
                      ((s3 % 4) * 64 + s4) :: tail)
              | none => none
            | none => none
        | none => none
    | _, _ => none
  | _ => none

/-! ## SHA-256 (`hashlib.sha256`)

32-bit words are `Nat` values kept below `2 ^ 32` by explicit reduction. -/

/-- Truncate to a 32-bit word. -/
def w32 (n : Nat) : Nat := n % 4294967296

/-- Rotate a 32-bit word right by `n`. -/
def rotr (n x : Nat) : Nat := w32 ((x >>> n) ||| (x <<< (32 - n)))

/-- SHA-256 `Ch(x,y,z)`; complement is xor with `2 ^ 32 - 1`. -/
def shaCh (x y z : Nat) : Nat := (x &&& y) ^^^ ((x ^^^ 4294967295) &&& z)

/-- SHA-256 `Maj(x,y,z)`. -/
def shaMaj (x y z : Nat) : Nat := (x &&& y) ^^^ (x &&& z) ^^^ (y &&& z)

/-- SHA-256 big sigma 0. -/
def bsig0 (x : Nat) : Nat := rotr 2 x ^^^ rotr 13 x ^^^ rotr 22 x

/-- SHA-256 big sigma 1. -/
def bsig1 (x : Nat) : Nat := rotr 6 x ^^^ rotr 11 x ^^^ rotr 25 x

/-- SHA-256 small sigma 0. -/
def ssig0 (x : Nat) : Nat := rotr 7 x ^^^ rotr 18 x ^^^ (x >>> 3)

/-- SHA-256 small sigma 1. -/
def ssig1 (x : Nat) : Nat := rotr 17 x ^^^ rotr 19 x ^^^ (x >>> 10)

/-- The 64 SHA-256 round constants. -/
def shaK : List Nat :=
  [1116352408, 1899447441, 3049323471, 3921009573,
   961987163, 1508970993, 2453635748, 2870763221,
   3624381080, 310598401, 607225278, 1426881987,
   1925078388, 2162078206, 2614888103, 3248222580,
   3835390401, 4022224774, 264347078, 604807628,
   770255983, 1249150122, 1555081692, 1996064986,
   2554220882, 2821834349, 2952996808, 3210313671,
   3336571891, 3584528711, 113926993, 338241895,
   666307205, 773529912, 1294757372, 1396182291,
   1695183700, 1986661051, 2177026350, 2456956037,
   2730485921, 2820302411, 3259730800, 3345764771,
   3516065817, 3600352804, 4094571909, 275423344,
   430227734, 506948616, 659060556, 883997877,
   958139571, 1322822218, 1537002063, 1747873779,
   1955562222, 2024104815, 2227730452, 2361852424,
   2428436474, 2756734187, 3204031479, 3329325298]

/-- The eight SHA-256 working variables. -/
structure SHAState where
  a : Nat
  b : Nat
  c : Nat
  d : Nat
  e : Nat
  f : Nat
  g : Nat
  h : Nat

/-- The SHA-256 initial hash value. -/
def shaInit : SHAState :=
  ⟨1779033703, 3144134277, 1013904242, 2773480762,
   1359893119, 2600822924, 528734635, 1541459225⟩

/-- `n` bytes of `x`, big-endian. -/
def beBytes : Nat → Nat → List Nat
  | 0, _ => []
  | k + 1, x => ((x >>> (8 * k)) % 256) :: beBytes k x

/-- Group bytes into big-endian 32-bit words. -/
def toWords : List Nat → List Nat
  | a :: b :: c :: d :: rest =>
    (a * 16777216 + b * 65536 + c * 256 + d) :: toWords rest
  | _ => []

/-- Message-schedule extension: `ws` holds the words produced so far, most
recent first; each step prepends one more word. -/
def shaExtend (ws : List Nat) : Nat → List Nat
  | 0 => ws
  | n + 1 =>
    shaExtend
      (w32 (ssig1 (ws.getD 1 0) + ws.getD 6 0 + ssig0 (ws.getD 14 0) +
            ws.getD 15 0) :: ws) n

/-- One SHA-256 round on the working variables, given `(K_i, W_i)`. -/
def shaRound (s : SHAState) (kw : Nat × Nat) : SHAState :=
  let t1 := w32 (s.h + bsig1 s.e + shaCh s.e s.f s.g + kw.1 + kw.2)
  let t2 := w32 (bsig0 s.a + shaMaj s.a s.b s.c)
  ⟨w32 (t1 + t2), s.a, s.b, s.c, w32 (s.d + t1), s.e, s.f, s.g⟩

/-- Compress one 64-byte block into the running hash state. -/
def shaCompress (st : SHAState) (block : List Nat) : SHAState :=
  let ws := (shaExtend (toWords block).reverse 48).reverse
  let e := (shaK.zip ws).foldl shaRound st
  ⟨w32 (st.a + e.a), w32 (st.b + e.b), w32 (st.c + e.c), w32 (st.d + e.d),
   w32 (st.e + e.e), w32 (st.f + e.f), w32 (st.g + e.g), w32 (st.h + e.h)⟩

/-- Split a (padded) message into its `k` 64-byte blocks. -/
def chunks64 : Nat → List Nat → List (List Nat)
  | 0, _ => []
  | k + 1, l => l.take 64 :: chunks64 k (l.drop 64)

/-- SHA-256 padding: `0x80`, zeros to 56 mod 64, then the bit length as
eight big-endian bytes. -/
def shaPad (msg : List Nat) : List Nat :=
  msg ++ 128 :: List.replicate ((119 - msg.length % 64) % 64) 0 ++
    beBytes 8 (msg.length * 8)

/-- The SHA-256 digest of a byte list, as 32 bytes. -/
def sha256bytes (msg : List Nat) : List Nat :=
  let padded := shaPad msg
  let fin := (chunks64 (padded.length / 64) padded).foldl shaCompress shaInit
  beBytes 4 fin.a ++ beBytes 4 fin.b ++ beBytes 4 fin.c ++ beBytes 4 fin.d ++
    beBytes 4 fin.e ++ beBytes 4 fin.f ++ beBytes 4 fin.g ++ beBytes 4 fin.h

/-- Lowercase hex digit for a value below 16. -/
def hexChar (n : Nat) : Nat := if n < 10 then 48 + n else 87 + n

/-- `hexdigest()`: two lowercase hex characters per byte. -/
def hexdigest : List Nat → PyStr
  | [] => []
  | b :: t => hexChar (b / 16 % 16) :: hexChar (b % 16) :: hexdigest t

/-- UTF-8 bytes of one code point. -/
def utf8Bytes (c : Nat) : List Nat :=
  if c < 128 then [c]
  else if c < 2048 then [192 + c / 64, 128 + c % 64]
  else if c < 65536 then [224 + c / 4096, 128 + c / 64 % 64, 128 + c % 64]
  else [240 + c / 262144, 128 + c / 4096 % 64, 128 + c / 64 % 64, 128 + c % 64]

/-- `unicode.encode("UTF-8")` on a code-point sequence. -/
def utf8Encode (s : PyStr) : List Nat := (s.map utf8Bytes).flatten

/-! ## The `User` credential code -/

/-- The Python-value-level `str(...)` applied to an optional string:
`str(None)` is the four characters `None`. -/
def pyStrOf : Option PyStr → PyStr
  | none => pyS "None"
  | some s => s

/-- Python truthiness of an optional integer column value: `None` and `0`
are falsy. -/
def pyTruthyInt : Option Int → Bool
  | none => false
  | some n => n != 0

/-- Python truthiness of an optional string column value: `None` and the
empty string are falsy. -/
def pyTruthyStr : Option PyStr → Bool
  | none => false
  | some s => !s.isEmpty

/-- The columns of `User` that the credential and age code reads or
writes.  `none` is SQL/Python `None`. -/
structure User where
  id : Option Int
  _salt : Option PyStr
  _password : Option PyStr
  date_of_birth : Option (Int × Int × Int)
  timezone : Option Int

/-- The `salt` hybrid property getter.  `os.urandom(8)` is passed in as
`rnd`.  If the user has no `id` and no salt, a fresh salt is generated and
stored; the getter returns the (possibly updated) salt together with the
mutated user.  (The `isinstance(..., str)` re-encode to UTF-8 is the
identity under Python 2 on this ASCII value.) -/
def User.salt (u : User) (rnd : List Nat) : Option PyStr × User :=
  let u1 :=
    if !pyTruthyInt u.id && !pyTruthyStr u._salt then
      { u with _salt := some (b64encode rnd) }
    else u
  (u1._salt, u1)

/-- `User.__encrypt_password`: SHA-256 over the UTF-8 password bytes
followed by the salt bytes, as a lowercase hex string. -/
def User.encrypt_password (password : PyStr) (salt : List Nat) : PyStr :=
  hexdigest (sha256bytes (utf8Encode password ++ salt))

/-- The `password` setter: stores
`__encrypt_password(password, b64decode(str(self.salt)))`.  The first
component is `none` when `b64decode` raises; the second component is the
user state after the call (the `salt` getter may have mutated it even when
the decode raises). -/
def User.set_password (u : User) (rnd : List Nat) (password : PyStr) :
    Option User × User :=
  let su := u.salt rnd
  match b64decode (pyStrOf su.1) with
  | none => (none, su.2)
  | some raw =>
    let u2 := { su.2 with
      _password := some (User.encrypt_password password raw) }
    (some u2, u2)

/-- `User.validate_password`: recompute the hash of the candidate and
compare with the stored `password` column (`None == str` is `False` in
Python).  The first component is `none` when `b64decode` raises. -/
def User.validate_password (u : User) (rnd : List Nat) (password : PyStr) :
    Option Bool × User :=
  let su := u.salt rnd
  match b64decode (pyStrOf su.1) with
  | none => (none, su.2)
  | some raw =>
    (some (su.2._password == some (User.encrypt_password password raw)), su.2)

/-- One credential operation on a user, with its random-bytes oracle. -/
inductive UserOp where
  | readSalt (rnd : List Nat)
  | setPassword (rnd : List Nat) (pw : PyStr)
  | checkPassword (rnd : List Nat) (pw : PyStr)

/-- The user state after one credential operation (exceptions propagate,
but any mutation already performed persists). -/
def applyOp (u : User) : UserOp → User
  | .readSalt rnd => (u.salt rnd).2
  | .setPassword rnd pw => (u.set_password rnd pw).2
  | .checkPassword rnd pw => (u.validate_password rnd pw).2

/-- The user state after a sequence of credential operations. -/
def applyOps (u : User) (ops : List UserOp) : User := ops.foldl applyOp u

/-! ## JSON values (`json.dumps` / `json.loads`)

`JSONEncodedDict` stores `json.dumps(value)` and reads `json.loads(text)`.
The model covers the float-free fragment of JSON: numbers are integers.
Strings are code-point sequences (a Python `str`/`unicode`); objects are
association lists in iteration order. -/

/-- A JSON value: `None`, `bool`, `int`, `str`, `list`, `dict`. -/
inductive JValue where
  | null : JValue
  | bool : Bool → JValue
  | int : Int → JValue
  | str : List Nat → JValue
  | arr : List JValue → JValue
  | obj : List (List Nat × JValue) → JValue

/-- A code point that is a Unicode scalar value (not a lone surrogate). -/
def validScalar (c : Nat) : Bool :=
  decide (c < 55296) || (decide (57344 ≤ c) && decide (c < 1114112))

/-- Four lowercase hex digits of a value below `16 ^ 4`. -/
def hex4 (n : Nat) : List Nat :=
  [hexChar (n / 4096 % 16), hexChar (n / 256 % 16),
   hexChar (n / 16 % 16), hexChar (n % 16)]

/-- `json.dumps` escaping of one character (`ensure_ascii=True`): the
two-character escapes, `\uXXXX` for other control or non-ASCII characters,
and a surrogate pair for code points beyond the basic plane. -/
def escapeChar (c : Nat) : List Nat :=
  if c = 34 then [92, 34]
  else if c = 92 then [92, 92]
  else if c = 8 then [92, 98]
  else if c = 9 then [92, 116]
  else if c = 10 then [92, 110]
  else if c = 12 then [92, 102]
  else if c = 13 then [92, 114]
  else if c < 32 then 92 :: 117 :: hex4 c
  else if c < 127 then [c]
  else if c < 65536 then 92 :: 117 :: hex4 c
  else
    (92 :: 117 :: hex4 (55296 + (c - 65536) / 1024)) ++
      92 :: 117 :: hex4 (56320 + (c - 65536) % 1024)

/-- `json.dumps` escaping of a string body. -/
def escapeStr (s : List Nat) : List Nat := (s.map escapeChar).flatten

/-- A dumped JSON string: quote, escaped body, quote. -/
def dumpsStr (s : List Nat) : List Nat := 34 :: escapeStr s ++ [34]

/-- Decimal digits of a natural number (`str(n)`). -/
def natDigits (n : Nat) : List Nat :=
  if n < 10 then [48 + n] else natDigits (n / 10) ++ [48 + n % 10]
decreasing_by exact Nat.div_lt_self (by omega) (by omega)

/-- `str(i)` for a Python integer. -/
def intDumps (i : Int) : List Nat :=
  if i < 0 then 45 :: natDigits i.natAbs else natDigits i.natAbs

mutual

/-- `json.dumps` with the default separators `(', ', ': ')` and
`ensure_ascii=True`. -/
def dumpsV : JValue → List Nat
  | .null => [110, 117, 108, 108]
  | .bool true => [116, 114, 117, 101]
  | .bool false => [102, 97, 108, 115, 101]
  | .int n => intDumps n
  | .str s => dumpsStr s
  | .arr l => 91 :: dumpsArr l ++ [93]
  | .obj l => 123 :: dumpsObj l ++ [125]

/-- Array elements joined by `", "`. -/
def dumpsArr : List JValue → List Nat
  | [] => []
  | v :: t => dumpsV v ++ (if t.isEmpty then [] else [44, 32]) ++ dumpsArr t

/-- Object members `"key": value` joined by `", "`. -/
def dumpsObj : List (List Nat × JValue) → List Nat
  | [] => []
  | (k, v) :: t =>
    (dumpsStr k ++ 58 :: 32 :: dumpsV v) ++
      (if t.isEmpty then [] else [44, 32]) ++ dumpsObj t

end

/-- Skip JSON whitespace. -/
def skipWs : List Nat → List Nat
  | [] => []
  | c :: rest =>
    if c = 32 ∨ c = 9 ∨ c = 10 ∨ c = 13 then skipWs rest else c :: rest

/-- The value of one hex digit character. -/
def hexDigitVal (c : Nat) : Option Nat :=
  if 48 ≤ c ∧ c ≤ 57 then some (c - 48)
  else if 97 ≤ c ∧ c ≤ 102 then some (c - 87)
  else if 65 ≤ c ∧ c ≤ 70 then some (c - 55)
  else none

/-- The value of a four-hex-digit escape body. -/
def hexVal4 (a b c d : Nat) : Option Nat :=
  match hexDigitVal a, hexDigitVal b, hexDigitVal c, hexDigitVal d with
  | some x, some y, some z, some w => some (x * 4096 + y * 256 + z * 16 + w)
  | _, _, _, _ => none

/-- The single-character JSON escapes. -/
def unescCh (e : Nat) : Option Nat :=
  if e = 34 then some 34
  else if e = 92 then some 92
  else if e = 47 then some 47
  else if e = 98 then some 8
  else if e = 102 then some 12
  else if e = 110 then some 10
  else if e = 114 then some 13
  else if e = 116 then some 9
  else none

/-- The continuation after a high-surrogate `\uXXXX` escape: an
immediately following low-surrogate escape combines into one astral code
point; anything else leaves the lone surrogate (as Python does).  `k` is
the continuation parsing the remainder. -/
def parseHighSurr (k : List Nat → Option (List Nat × List Nat)) (n : Nat) :
    List Nat → Option (List Nat × List Nat)
  | 92 :: 117 :: a2 :: b2 :: c2 :: d2 :: rest4 =>
    match hexVal4 a2 b2 c2 d2 with
    | none => none
    | some m =>
      if 56320 ≤ m ∧ m < 57344 then
        (k rest4).map
          (fun p => ((65536 + (n - 55296) * 1024 + (m - 56320)) :: p.1, p.2))
      else
        (k (92 :: 117 :: a2 :: b2 :: c2 :: d2 :: rest4)).map
          (fun p => (n :: p.1, p.2))
  | s => (k s).map (fun p => (n :: p.1, p.2))

/-- One escape sequence after a backslash; `k` is the continuation
parsing the remainder of the string body. -/
def parseEsc (k : List Nat → Option (List Nat × List Nat)) :
    List Nat → Option (List Nat × List Nat)
  | [] => none
  | e :: rest2 =>
    if e = 117 then
      match rest2 with
      | a :: b :: c :: d :: rest3 =>
        match hexVal4 a b c d with
        | none => none
        | some n =>
          if 55296 ≤ n ∧ n < 56320 then parseHighSurr k n rest3
          else (k rest3).map (fun p => (n :: p.1, p.2))
      | _ => none
    else
      match unescCh e with
      | some u => (k rest2).map (fun p => (u :: p.1, p.2))
      | none => none

/-- Parse a JSON string body after the opening quote: unescape, combine
surrogate pairs, keep lone surrogates (as Python does), reject raw control
characters (`strict=True`).  Fuel-indexed; every step consumes at least one
input character, so fuel exceeding the input length never runs out. -/
def parseStrAux : Nat → List Nat → Option (List Nat × List Nat)
  | 0, _ => none
  | _, [] => none
  | fuel + 1, c :: rest =>
    if c = 34 then some ([], rest)
    else if c = 92 then parseEsc (parseStrAux fuel) rest
    else if c < 32 then none
    else (parseStrAux fuel rest).map (fun p => (c :: p.1, p.2))

/-- Parse a JSON string body: the fuel of `parseStrAux` never runs out when
it exceeds the input length. -/
def parseStr (s : List Nat) : Option (List Nat × List Nat) :=
  parseStrAux (s.length + 1) s

/-- Does the input continue with a fraction or exponent?  (Floats are
outside the modelled fragment.) -/
def fracExpHead : List Nat → Bool
  | c :: _ => c == 46 || c == 101 || c == 69
  | [] => false

/-- Consume a maximal run of decimal digits. -/
def takeDigits : Nat → List Nat → Nat × List Nat
  | acc, c :: rest =>
    if 48 ≤ c ∧ c ≤ 57 then takeDigits (acc * 10 + (c - 48)) rest
    else (acc, c :: rest)
  | acc, [] => (acc, [])

/-- Parse an unsigned JSON integer (`0` or a nonzero-led digit run). -/
def parseUNum : List Nat → Option (Nat × List Nat)
  | [] => none
  | c :: rest =>
    if c = 48 then
      if fracExpHead rest then none else some (0, rest)
    else if 49 ≤ c ∧ c ≤ 57 then
      let p := takeDigits 0 (c :: rest)
      if fracExpHead p.2 then none else some p
    else none

/-- Parse a JSON integer with optional leading minus. -/
def parseNum : List Nat → Option (Int × List Nat)
  | 45 :: rest =>
    match parseUNum rest with
    | some (n, r) => some (-(n : Int), r)
    | none => none
  | s =>
    match parseUNum s with
    | some (n, r) => some ((n : Int), r)
    | none => none

/-- Python `dict` assignment on an association list: replace the value at
an existing key in place, else append. -/
def dictInsert : List (List Nat × JValue) → List Nat → JValue →
    List (List Nat × JValue)
  | [], k, v => [(k, v)]
  | (k0, v0) :: rest, k, v =>
    if k0 = k then (k0, v) :: rest else (k0, v0) :: dictInsert rest k v

/-- Build a Python `dict` from parsed members (last value wins per key). -/
def pyDict (pairs : List (List Nat × JValue)) : List (List Nat × JValue) :=
  pairs.foldl (fun d p => dictInsert d p.1 p.2) []

mutual

/-- Parse one JSON value, fuel-indexed. -/
def parseVal : Nat → List Nat → Option (JValue × List Nat)
  | 0, _ => none
  | fuel + 1, s0 =>
    match skipWs s0 with
    | [] => none
    | c :: rest =>
      if c = 110 then
        match rest with
        | 117 :: 108 :: 108 :: r => some (.null, r)
        | _ => none
      else if c = 116 then
        match rest with
        | 114 :: 117 :: 101 :: r => some (.bool true, r)
        | _ => none
      else if c = 102 then
        match rest with
        | 97 :: 108 :: 115 :: 101 :: r => some (.bool false, r)
        | _ => none
      else if c = 34 then
        match parseStr rest with
        | some (s, r) => some (.str s, r)
        | none => none
      else if c = 91 then
        match skipWs rest with
        | 93 :: r => some (.arr [], r)
        | r1 =>
          match parseItems fuel r1 with
          | some (l, r) => some (.arr l, r)
          | none => none
      else if c = 123 then
        match skipWs rest with
        | 125 :: r => some (.obj [], r)
        | r1 =>
          match parseMembers fuel r1 with
          | some (l, r) => some (.obj (pyDict l), r)
          | none => none
      else
        match parseNum (c :: rest) with
        | some (i, r) => some (.int i, r)
        | none => none

/-- Parse the elements of a nonempty array up to the closing bracket. -/
def parseItems : Nat → List Nat → Option (List JValue × List Nat)
  | 0, _ => none
  | fuel + 1, s =>
    match parseVal fuel s with
    | none => none
    | some (v, r) =>
      match skipWs r with
      | 44 :: r2 =>
        match parseItems fuel r2 with
        | some (l, r3) => some (v :: l, r3)
        | none => none
      | 93 :: r2 => some ([v], r2)
      | _ => none

/-- Parse the members of a nonempty object up to the closing brace. -/
def parseMembers : Nat → List Nat →
    Option (List (List Nat × JValue) × List Nat)
  | 0, _ => none
  | fuel + 1, s =>
    match skipWs s with
    | 34 :: r =>
      match parseStr r with
      | none => none
      | some (k, r1) =>
        match skipWs r1 with
        | 58 :: r2 =>
          match parseVal fuel r2 with
          | none => none
          | some (v, r3) =>
            match skipWs r3 with
            | 44 :: r4 =>
              match parseMembers fuel r4 with
              | some (l, r5) => some ((k, v) :: l, r5)
              | none => none
            | 125 :: r4 => some ([(k, v)], r4)
            | _ => none
        | _ => none
    | _ => none

end

/-- `json.loads`: parse one value, then require only whitespace after it. -/
def jsonLoads (s : List Nat) : Option JValue :=
  match parseVal (s.length + 1) s with
  | some (v, rest) => if skipWs rest = [] then some v else none
  | none => none

/-- `JSONEncodedDict.process_bind_param` (shared by `JSONEncodedList`):
`None` is stored as-is, anything else as its `json.dumps` text. -/
def process_bind_param : Option JValue → Option (List Nat)
  | none => none
  | some v => some (dumpsV v)

/-- `JSONEncodedDict.process_result_value`, parameterised by the class's
`empty_val`: a stored `None` reads back as `empty_val`, other text is
`json.loads`-parsed (`none` models the raised decode error). -/
def process_result_value (empty_val : JValue) :
    Option (List Nat) → Option JValue
  | none => some empty_val
  | some s => jsonLoads s

/-- `JSONEncodedDict.empty_val`: the empty dict. -/
def dictEmpty : JValue := JValue.obj []

/-- `JSONEncodedList.empty_val`: the empty list. -/
def listEmpty : JValue := JValue.arr []

/-- The JSON values a Python program can actually hold: object keys are
distinct (`dict` keys), and strings contain only Unicode scalar values. -/
inductive WFJ : JValue → Prop where
  | null : WFJ .null
  | bool (b : Bool) : WFJ (.bool b)
  | int (n : Int) : WFJ (.int n)
  | str (s : List Nat) (h : ∀ c ∈ s, validScalar c = true) : WFJ (.str s)
  | arr (l : List JValue) (h : ∀ v ∈ l, WFJ v) : WFJ (.arr l)
  | obj (l : List (List Nat × JValue))
      (hk : (l.map Prod.fst).Nodup)
      (hs : ∀ p ∈ l, ∀ c ∈ p.1, validScalar c = true)
      (hv : ∀ p ∈ l, WFJ p.2) :
      WFJ (.obj l)

/-! ## `User.age` (`calendar.leapdays`, `datetime` date arithmetic)

Dates are proleptic-Gregorian `(year, month, day)` triples; an instant
(`datetime.utcnow()`) is a day number (days since 1970-01-01) plus the
seconds elapsed within that day.  Day numbers and civil dates are related
by the standard civil-calendar conversions, mirroring `datetime.date`
ordinal arithmetic. -/

/-- Day number (days since 1970-01-01) of a civil date.  `y`, `m`, `d` are
the components of the date; Python `//` is `Int.fdiv`. -/
def daysFromCivil (y m d : Int) : Int :=
  let y1 := y - (if m ≤ 2 then 1 else 0)
  let era := Int.fdiv y1 400
  let yoe := y1 - era * 400
  let mp := if m > 2 then m - 3 else m + 9
  let doy := Int.fdiv (153 * mp + 2) 5 + d - 1
  let doe := yoe * 365 + Int.fdiv yoe 4 - Int.fdiv yoe 100 + doy
  era * 146097 + doe - 719468

/-- Civil date `(year, month, day)` of a day number. -/
def civilFromDays (z0 : Int) : Int × Int × Int :=
  let z := z0 + 719468
  let era := Int.fdiv z 146097
  let doe := z - era * 146097
  let yoe :=
    Int.fdiv (doe - Int.fdiv doe 1460 + Int.fdiv doe 36524 -
              Int.fdiv doe 146096) 365
  let y := yoe + era * 400
  let doy := doe - (365 * yoe + Int.fdiv yoe 4 - Int.fdiv yoe 100)
  let mp := Int.fdiv (5 * doy + 2) 153
  let d := doy - Int.fdiv (153 * mp + 2) 5 + 1
  let m := if mp < 10 then mp + 3 else mp - 9
  (y + (if m ≤ 2 then 1 else 0), m, d)

/-- `calendar.leapdays(y1, y2)`: leap years in the half-open range
`[y1, y2)`, exactly as the library computes it. -/
def leapdays (y1 y2 : Int) : Int :=
  let a := y1 - 1
  let b := y2 - 1
  (Int.fdiv b 4 - Int.fdiv a 4) - (Int.fdiv b 100 - Int.fdiv a 100) +
    (Int.fdiv b 400 - Int.fdiv a 400)

/-- `calendar.isleap(y)`. -/
def isleap (y : Int) : Bool :=
  Int.emod y 4 == 0 && (Int.emod y 100 != 0 || Int.emod y 400 == 0)

/-- The leap-day count as the specification words it: the number of leap
years `y` with `y1 ≤ y ≤ y2` (both ends inclusive).  Stated from the
spec's words, for comparison with the code's `leapdays`. -/
def leapYearsInclusive (y1 y2 : Int) : Int :=
  if y2 < y1 then 0
  else ((List.range (y2 - y1 + 1).toNat).filter
          (fun k => isleap (y1 + k))).length

/-- A `datetime.utcnow()` instant: whole days since 1970-01-01 plus the
seconds elapsed within the day. -/
structure PyInstant where
  days : Int
  sod : Int

/-- `User.age`: `-1` with no birth date; otherwise the day difference to
`(utcnow() + timedelta(hours=timezone)).date()` minus
`calendar.leapdays(birth_year, today_year)`, floor-divided by 365.
`none` models the `TypeError` from `timedelta(hours=None)` when the
`timezone` column is `NULL`.  (A `date` object is always truthy, so the
`birthday or (today - timedelta(1))` fallback is `birthday`.) -/
def User.age (u : User) (now : PyInstant) : Option Int :=
  match u.date_of_birth with
  | none => some (-1)
  | some birthday =>
    match u.timezone with
    | none => none
    | some tz =>
      let todayN := Int.fdiv (now.days * 86400 + now.sod + tz * 3600) 86400
      let today := civilFromDays todayN
      let ageDays := todayN - daysFromCivil birthday.1 birthday.2.1 birthday.2.2
      some (Int.fdiv (ageDays - leapdays birthday.1 today.1) 365)

/-- The age computation as the claim describes it, with the leap
adjustment counted over the inclusive year range.  Stated from the spec's
words, for comparison with `User.age`. -/
def specAgeInclusive (u : User) (now : PyInstant) : Option Int :=
  match u.date_of_birth with
  | none => some (-1)
  | some birthday =>
    match u.timezone with
    | none => none
    | some tz =>
      let todayN := Int.fdiv (now.days * 86400 + now.sod + tz * 3600) 86400
      let today := civilFromDays todayN
      let ageDays := todayN - daysFromCivil birthday.1 birthday.2.1 birthday.2.2
      some (Int.fdiv (ageDays - leapYearsInclusive birthday.1 today.1) 365)

/-! ## Concrete inputs used by the checked scenarios -/

/-- The Base64 text of eight zero bytes. -/
def saltAAA : PyStr := pyS (r"AAAAAAAAAAA=")

/-- An unpersisted user whose salt is already assigned to `saltAAA`. -/
def uAAA : User :=
  { id := none, _salt := some saltAAA, _password := none,
    date_of_birth := none, timezone := none }

/-- `sha256("secret" + 8 zero bytes).hexdigest()`. -/
def secretDigest : PyStr :=
  pyS (r"014807401838666cb76e22aae90b3b0a22959ae2fb40621b1d09e862eb9653e5")

/-- The spec's structured-value scenario: a mapping of an int and a list. -/
def jsonExample : JValue :=
  .obj [(pyS (r"a"), .int 1), (pyS (r"b"), .arr [.int 1, .int 2, .int 3])]

/-- A user born 2024-01-01 (UTC offset 0). -/
def userBorn2024 : User :=
  { id := none, _salt := none, _password := none,
    date_of_birth := some (2024, 1, 1), timezone := some 0 }

/-- An instant during 2024-12-31. -/
def endOf2024 : PyInstant := ⟨daysFromCivil 2024 12 31, 0⟩

/-- A user with a birth date but a `NULL` timezone column. -/
def userNoTz : User :=
  { id := none, _salt := none, _password := none,
    date_of_birth := some (2000, 1, 1), timezone := none }

/-- A persisted user (`id` set) whose salt column is still `NULL`. -/
def userWithId : User :=
  { id := some 1, _salt := none, _password := none,
    date_of_birth := none, timezone := none }

/-- A user born 2022-06-01 (UTC offset 0): 365 days before 2023-06-01
with no leap year in `[2022, 2023)`. -/
def userBorn2022 : User :=
  { id := none, _salt := none, _password := none,
    date_of_birth := some (2022, 6, 1), timezone := some 0 }

/-- An instant during 2023-06-01. -/
def mid2023 : PyInstant := ⟨daysFromCivil 2023 6 1, 3600⟩

/-- The continuation after a printed number must not extend the numeral:
no digit, no decimal point, no exponent letter. -/
def numSafe : List Nat → Prop
  | [] => True
  | c :: _ => ¬(48 ≤ c ∧ c ≤ 57) ∧ c ≠ 46 ∧ c ≠ 101 ∧ c ≠ 69

/-! ## Credential lemmas -/

/-- A nonempty list is not `isEmpty`. -/
theorem isEmpty_false_of_ne {s : PyStr} (h : s ≠ []) : s.isEmpty = false := by
  cases s with
  | nil => exact absurd rfl h
  | cons a t => rfl

/-- Reading the salt of a user whose salt is assigned (a truthy string)
returns it and leaves the user unchanged. -/
theorem salt_stable (u : User) (rnd : List Nat) {s : PyStr}
    (h1 : u._salt = some s) (h2 : s ≠ []) : u.salt rnd = (some s, u) := by
  unfold User.salt
  simp [pyTruthyStr, h1, isEmpty_false_of_ne h2]

/-- Every credential operation leaves an assigned salt unchanged. -/
theorem applyOp_salt (u : User) (op : UserOp) {s : PyStr}
    (h1 : u._salt = some s) (h2 : s ≠ []) :
    (applyOp u op)._salt = some s := by
  cases op with
  | readSalt rnd =>
    show (u.salt rnd).2._salt = some s
    rw [salt_stable u rnd h1 h2]
    exact h1
  | setPassword rnd pw =>
    show (u.set_password rnd pw).2._salt = some s
    unfold User.set_password
    rw [salt_stable u rnd h1 h2]
    cases hb : b64decode (pyStrOf (some s)) with
    | none => simp [hb, h1]
    | some raw => simp [hb, h1]
  | checkPassword rnd pw =>
    show (u.validate_password rnd pw).2._salt = some s
    unfold User.validate_password
    rw [salt_stable u rnd h1 h2]
    cases hb : b64decode (pyStrOf (some s)) with
    | none => simp [hb, h1]
    | some raw => simp [hb, h1]

/-- C8: once a salt is assigned, no sequence of credential operations
(salt reads, password sets, password checks) ever changes it. -/
theorem c8_salt_never_changes (ops : List UserOp) (u : User) (s : PyStr)
    (h1 : u._salt = some s) (h2 : s ≠ []) :
    (applyOps u ops)._salt = some s := by
  induction ops generalizing u with
  | nil => exact h1
  | cons op rest ih =>
    exact ih (applyOp u op) (applyOp_salt u op h1 h2)

/-- C8 witness: a read, a set and a check on a user salted with
`saltAAA` leave the salt column equal to `saltAAA`. -/
theorem c8_salt_never_changes_witness :
    (applyOps uAAA
      [UserOp.readSalt [], UserOp.setPassword [] (pyS (r"pw")),
       UserOp.checkPassword [] (pyS (r"pw"))])._salt = some saltAAA :=
  c8_salt_never_changes _ uAAA saltAAA rfl (by decide)

/-- C1: on a user with an assigned salt, setting the password stores
`__encrypt_password(p, b64decode(salt))`; afterwards validating `p`
returns `True` and validating `p + "x"` returns `False` (the latter given
that the two digests differ, which the witness checks on concrete data). -/
theorem c1_set_password_then_verify (u : User) (rnd rnd2 rnd3 : List Nat)
    (p s raw : PyStr) (h1 : u._salt = some s) (h2 : s ≠ [])
    (h3 : b64decode s = some raw) :
    ∃ u2, u.set_password rnd p = (some u2, u2) ∧
      u2._password = some (User.encrypt_password p raw) ∧
      (u2.validate_password rnd2 p).1 = some true ∧
      (User.encrypt_password (p ++ [120]) raw ≠ User.encrypt_password p raw →
        (u2.validate_password rnd3 (p ++ [120])).1 = some false) := by
  have hs := salt_stable u rnd h1 h2
  refine ⟨{ u with _password := some (User.encrypt_password p raw) },
    ?_, rfl, ?_, ?_⟩
  · unfold User.set_password
    rw [hs]
    simp [pyStrOf, h3]
  · have hs2 := salt_stable
      { u with _password := some (User.encrypt_password p raw) } rnd2 h1 h2
    unfold User.validate_password
    rw [hs2]
    simp [pyStrOf, h3]
  · intro hne
    have hs3 := salt_stable
      { u with _password := some (User.encrypt_password p raw) } rnd3 h1 h2
    unfold User.validate_password
    rw [hs3]
    simp [pyStrOf, h3]
    exact fun hcontra => hne (hcontra.symm)

/-- C1 witness: with the concrete salt `saltAAA` and password `secret`,
setting then validating succeeds and validating `secretx` fails. -/
theorem c1_set_password_then_verify_witness :
    b64decode saltAAA = some [0, 0, 0, 0, 0, 0, 0, 0] ∧
    ∃ u2, uAAA.set_password [] (pyS (r"secret")) = (some u2, u2) ∧
      u2._password =
        some (User.encrypt_password (pyS (r"secret")) [0, 0, 0, 0, 0, 0, 0, 0]) ∧
      (u2.validate_password [] (pyS (r"secret"))).1 = some true ∧
      (u2.validate_password [] (pyS (r"secret") ++ [120])).1 = some false := by
  have hdec : b64decode saltAAA = some [0, 0, 0, 0, 0, 0, 0, 0] := by decide
  obtain ⟨u2, he, hp, hv, hf⟩ := c1_set_password_then_verify uAAA [] [] []
    (pyS (r"secret")) saltAAA [0, 0, 0, 0, 0, 0, 0, 0] rfl (by decide) hdec
  exact ⟨hdec, u2, he, hp, hv, hf (by decide)⟩

/-- C3: with an assigned salt and stored hash, `validate_password` returns
exactly the comparison of the stored hash with the recomputed candidate
hash — `True` iff they match, `False` otherwise, never an exception. -/
theorem c3_validate_password (u : User) (rnd : List Nat)
    (p s raw stored : PyStr) (h1 : u._salt = some s) (h2 : s ≠ [])
    (h3 : b64decode s = some raw) (h4 : u._password = some stored) :
    (u.validate_password rnd p).1 =
      some (stored == User.encrypt_password p raw) ∧
    ((u.validate_password rnd p).1 = some true ↔
      User.encrypt_password p raw = stored) ∧
    (u.validate_password rnd p).1 ≠ none := by
  have hs := salt_stable u rnd h1 h2
  have hval : (u.validate_password rnd p).1 =
      some (stored == User.encrypt_password p raw) := by
    unfold User.validate_password
    rw [hs]
    simp [pyStrOf, h3, h4]
  refine ⟨hval, ?_, by rw [hval]; simp⟩
  rw [hval]
  constructor
  · intro h
    simp only [Option.some.injEq, beq_iff_eq] at h
    exact h.symm
  · intro h
    rw [← h]
    simp

/-- C3 witness: a wrong password against the stored `secret` digest is a
plain `False`, not an error. -/
theorem c3_validate_password_witness :
    (({ uAAA with _password := some secretDigest } : User).validate_password
        [] (pyS (r"Secret"))).1 = some false := by
  have h := c3_validate_password { uAAA with _password := some secretDigest }
    [] (pyS (r"Secret")) saltAAA [0, 0, 0, 0, 0, 0, 0, 0] secretDigest rfl
    (by decide) (by decide) rfl
  rw [h.1]
  decide

/-- C7 as stated fails on the code: a *persisted* user (`id` set) with a
`NULL` salt gets no salt generated — the getter returns `None` and stores
nothing, because generation is guarded by `not self.id`. -/
theorem c7_counterexample :
    (userWithId.salt (List.replicate 8 0)).1 = none ∧
    (userWithId.salt (List.replicate 8 0)).2._salt = none ∧
    (none : Option PyStr) ≠ some (b64encode (List.replicate 8 0)) :=
  ⟨by decide, by decide, by simp⟩

/-- `b64encode` of a nonempty byte list is nonempty. -/
theorem b64encode_ne_nil (l : List Nat) (h : l ≠ []) : b64encode l ≠ [] := by
  match l with
  | [] => exact absurd rfl h
  | [b1] => simp [b64encode]
  | [b1, b2] => simp [b64encode]
  | b1 :: b2 :: b3 :: rest => simp [b64encode]

/-- C7 amended: for a user with no salt *and no id yet* (unpersisted),
reading the salt stores and returns the Base64 encoding of the eight
random bytes, and every later read returns that same value. -/
theorem c7_amended_salt_generation (u : User) (rnd : List Nat)
    (hid : pyTruthyInt u.id = false) (hs : pyTruthyStr u._salt = false)
    (hlen : rnd.length = 8) :
    (u.salt rnd).1 = some (b64encode rnd) ∧
    (u.salt rnd).2._salt = some (b64encode rnd) ∧
    ∀ rnd2, (u.salt rnd).2.salt rnd2 =
      (some (b64encode rnd), (u.salt rnd).2) := by
  have hne : b64encode rnd ≠ [] := b64encode_ne_nil rnd (by
    intro hnil
    rw [hnil] at hlen
    exact absurd hlen (by decide))
  have hget : u.salt rnd =
      (some (b64encode rnd), { u with _salt := some (b64encode rnd) }) := by
    unfold User.salt
    simp [hid, hs]
  refine ⟨by rw [hget], by rw [hget], fun rnd2 => ?_⟩
  rw [hget]
  exact salt_stable _ rnd2 rfl hne

/-- C7 amended witness: a fresh user and eight zero bytes. -/
theorem c7_amended_salt_generation_witness :
    pyTruthyInt (none : Option Int) = false ∧
    ((⟨none, none, none, none, none⟩ : User).salt
        (List.replicate 8 0)).1 = some saltAAA := by
  have h := c7_amended_salt_generation ⟨none, none, none, none, none⟩
    (List.replicate 8 0) rfl rfl (by decide)
  exact ⟨rfl, by rw [h.1]; decide⟩

/-! ## Hash shape lemmas -/

/-- `beBytes` produces exactly `k` bytes. -/
theorem beBytes_length (k x : Nat) : (beBytes k x).length = k := by
  induction k generalizing x with
  | zero => rfl
  | succ k ih => simp [beBytes, ih]

/-- `hexdigest` yields two characters per byte. -/
theorem hexdigest_length (bs : List Nat) :
    (hexdigest bs).length = 2 * bs.length := by
  induction bs with
  | nil => rfl
  | cons b t ih => simp [hexdigest, ih]; ring

/-- A SHA-256 digest is 32 bytes. -/
theorem sha256bytes_length (msg : List Nat) :
    (sha256bytes msg).length = 32 := by
  unfold sha256bytes
  simp [beBytes_length]

/-- `hexChar` of a value below 16 is a lowercase hex character. -/
theorem hexChar_mem : ∀ n < 16, hexChar n ∈ pyS (r"0123456789abcdef") := by
  decide

/-- Every character of a `hexdigest` is a lowercase hex character. -/
theorem hexdigest_mem (bs : List Nat) :
    ∀ c ∈ hexdigest bs, c ∈ pyS (r"0123456789abcdef") := by
  induction bs with
  | nil => intro c hc; simp [hexdigest] at hc
  | cons b t ih =>
    intro c hc
    simp only [hexdigest, List.mem_cons] at hc
    rcases hc with h | h | h
    · exact h ▸ hexChar_mem _ (Nat.mod_lt _ (by omega))
    · exact h ▸ hexChar_mem _ (Nat.mod_lt _ (by omega))
    · exact ih c h

/-- C2: `__encrypt_password` returns the 64-character lowercase-hex
SHA-256 digest of the UTF-8 password bytes followed by the salt bytes;
on the concrete scenario (salt `AAAAAAAAAAA=`, password `secret`) it
stores the fixed digest, validating `secret` and rejecting `Secret`. -/
theorem c2_hash_password (p salt : List Nat) (hlen : salt.length = 8) :
    (User.encrypt_password p salt).length = 64 ∧
    (∀ c ∈ User.encrypt_password p salt, c ∈ pyS (r"0123456789abcdef")) ∧
    b64decode saltAAA = some (List.replicate 8 0) ∧
    User.encrypt_password (pyS (r"secret")) (List.replicate 8 0) =
      secretDigest ∧
    (uAAA.set_password [] (pyS (r"secret"))).2._password =
      some secretDigest ∧
    ((uAAA.set_password [] (pyS (r"secret"))).2.validate_password []
        (pyS (r"secret"))).1 = some true ∧
    ((uAAA.set_password [] (pyS (r"secret"))).2.validate_password []
        (pyS (r"Secret"))).1 = some false := by
  refine ⟨?_, ?_, by decide, by decide, by decide, by decide, by decide⟩
  · unfold User.encrypt_password
    rw [hexdigest_length, sha256bytes_length]
  · exact hexdigest_mem _

/-- C2 witness: the shape facts instantiated at a concrete password and
the eight-zero-byte salt. -/
theorem c2_hash_password_witness :
    (List.replicate 8 0 : List Nat).length = 8 ∧
    (User.encrypt_password (pyS (r"a")) (List.replicate 8 0)).length = 64 :=
  ⟨by decide, (c2_hash_password (pyS (r"a")) _ (by decide)).1⟩

/-! ## Structured-value codec: null handling -/

/-- C5: a `None` value binds as storage-native `NULL` (not JSON text), and
a storage-native `NULL` reads back as the codec's `empty_val` — `{}` for
the dict codec, `[]` for the list codec — which is not `None`. -/
theorem c5_null_default :
    process_bind_param none = none ∧
    process_result_value dictEmpty (process_bind_param none) =
      some dictEmpty ∧
    process_result_value listEmpty (process_bind_param none) =
      some listEmpty ∧
    dictEmpty ≠ JValue.null ∧ listEmpty ≠ JValue.null :=
  ⟨rfl, rfl, rfl, by simp [dictEmpty], by simp [listEmpty]⟩

/-- C10: the four-character stored text `null` decodes to the Python
`None` value, not to the codec's empty default; the empty default appears
only for a storage-native `NULL`. -/
theorem c10_null_text_decodes_to_none :
    process_result_value dictEmpty (some (pyS (r"null"))) =
      some JValue.null ∧
    process_result_value listEmpty (some (pyS (r"null"))) =
      some JValue.null ∧
    process_result_value dictEmpty none = some dictEmpty ∧
    process_result_value listEmpty none = some listEmpty ∧
    JValue.null ≠ dictEmpty ∧ JValue.null ≠ listEmpty :=
  ⟨rfl, rfl, rfl, rfl, by simp [dictEmpty], by simp [listEmpty]⟩

/-! ## Age -/

/-- C9 as stated fails on the code: a user with a birth date but a `NULL`
`timezone` column makes `age` raise (`timedelta(hours=None)` is a
`TypeError`), so the computation is not error-free for every user. -/
theorem c9_counterexample : userNoTz.age ⟨20000, 0⟩ = none := rfl

/-- C9 amended: `age` returns the sentinel `-1` when the birth date is
absent, and returns a value (never raises) whenever the birth date is
present and the timezone column is set. -/
theorem c9_age_amended (u : User) (now : PyInstant) :
    (u.date_of_birth = none → u.age now = some (-1)) ∧
    (∀ bd, u.date_of_birth = some bd → u.timezone ≠ none →
      ∃ k, u.age now = some k) := by
  constructor
  · intro h
    unfold User.age
    rw [h]
  · intro bd hbd htz
    unfold User.age
    rw [hbd]
    cases htz2 : u.timezone with
    | none => exact absurd htz2 htz
    | some tz => exact ⟨_, rfl⟩

/-- C9 amended witness: no birth date gives `-1`; a set timezone gives a
value. -/
theorem c9_age_amended_witness :
    ((⟨none, none, none, none, none⟩ : User).age ⟨20000, 0⟩ = some (-1)) ∧
    ∃ k, userBorn2024.age endOf2024 = some k :=
  ⟨(c9_age_amended ⟨none, none, none, none, none⟩ ⟨20000, 0⟩).1 rfl,
   (c9_age_amended userBorn2024 endOf2024).2 (2024, 1, 1) rfl (by decide)⟩

/-- C6 as stated fails on the code: for a user born 2024-01-01 evaluated
on 2024-12-31, the code (whose `calendar.leapdays` counts the half-open
year range) returns age 1, while the claim's inclusive leap count gives
floor((365 - 1) / 365) = 0. -/
theorem c6_counterexample :
    userBorn2024.age endOf2024 = some 1 ∧
    specAgeInclusive userBorn2024 endOf2024 = some 0 ∧
    (1 : Int) ≠ 0 :=
  ⟨by decide, by decide, by decide⟩

/-- `calendar.leapdays` over an empty year range is zero. -/
theorem leapdays_self (y : Int) : leapdays y y = 0 := by
  unfold leapdays
  ring

/-- C6 amended: with a birth date and timezone present, `age` is
floor((today − birthday − leapdays(birth_year, today_year)) / 365), the
leap count taken over the half-open range `[birth_year, today_year)`;
in particular it is 0 when the birthday is today, and 1 when the birthday
is 365 days before today with no leap year in the half-open range. -/
theorem c6_age_amended (u : User) (now : PyInstant) (y m d tz todayN : Int)
    (hbd : u.date_of_birth = some (y, m, d)) (htz : u.timezone = some tz)
    (htoday : todayN =
      Int.fdiv (now.days * 86400 + now.sod + tz * 3600) 86400) :
    (u.age now = some (Int.fdiv ((todayN - daysFromCivil y m d) -
        leapdays y (civilFromDays todayN).1) 365)) ∧
    (daysFromCivil y m d = todayN → y = (civilFromDays todayN).1 →
      u.age now = some 0) ∧
    (daysFromCivil y m d = todayN - 365 →
      leapdays y (civilFromDays todayN).1 = 0 →
      u.age now = some 1) := by
  subst htoday
  have hmain : u.age now = some (Int.fdiv
      ((Int.fdiv (now.days * 86400 + now.sod + tz * 3600) 86400 -
          daysFromCivil y m d) -
        leapdays y (civilFromDays
          (Int.fdiv (now.days * 86400 + now.sod + tz * 3600) 86400)).1)
      365) := by
    unfold User.age
    rw [hbd, htz]
  refine ⟨hmain, ?_, ?_⟩
  · intro he hy
    rw [hmain, he, ← hy, leapdays_self]
    norm_num
  · intro he hl
    rw [hmain, he, hl]
    have h365 : Int.fdiv (now.days * 86400 + now.sod + tz * 3600) 86400 -
        (Int.fdiv (now.days * 86400 + now.sod + tz * 3600) 86400 - 365) -
        0 = (365 : Int) := by ring
    rw [h365]
    decide

/-- C6 amended witness: the general formula on the 2024 user, and the
365-day no-leap scenario returning exactly 1. -/
theorem c6_age_amended_witness :
    (userBorn2024.age endOf2024 = some (Int.fdiv
      ((20088 - daysFromCivil 2024 1 1) -
        leapdays 2024 (civilFromDays 20088).1) 365)) ∧
    userBorn2022.age mid2023 = some 1 := by
  have h1 := c6_age_amended userBorn2024 endOf2024 2024 1 1 0 20088
    rfl rfl (by decide)
  have h2 := c6_age_amended userBorn2022 mid2023 2022 6 1 0
    (daysFromCivil 2023 6 1) rfl rfl (by decide)
  exact ⟨h1.1, h2.2.2 (by decide) (by decide)⟩

/-! ## Number printing and parsing -/

/-- `natDigits` starts with a digit, nonzero unless the number is zero. -/
theorem natDigits_head (n : Nat) :
    ∃ c r, natDigits n = c :: r ∧ 48 ≤ c ∧ c ≤ 57 ∧ (1 ≤ n → c ≠ 48) := by
  induction n using Nat.strong_induction_on with
  | _ n ih =>
    rw [natDigits]
    by_cases h : n < 10
    · rw [if_pos h]
      exact ⟨48 + n, [], rfl, by omega, by omega, by omega⟩
    · obtain ⟨c, r, hcr, h48, h57, hz⟩ :=
        ih (n / 10) (Nat.div_lt_self (by omega) (by omega))
      rw [if_neg h, hcr]
      exact ⟨c, r ++ [48 + n % 10], rfl, h48, h57,
        fun _ => hz (by omega)⟩

/-- `natDigits` is never empty. -/
theorem natDigits_ne_nil (n : Nat) : natDigits n ≠ [] := by
  obtain ⟨c, r, hcr, -, -, -⟩ := natDigits_head n
  simp [hcr]

/-- Consuming the printed digits of `n` accumulates exactly `n`. -/
theorem takeDigits_natDigits (n : Nat) :
    ∀ acc rest, takeDigits acc (natDigits n ++ rest) =
      takeDigits (acc * 10 ^ (natDigits n).length + n) rest := by
  induction n using Nat.strong_induction_on with
  | _ n ih =>
    intro acc rest
    rw [natDigits]
    by_cases h : n < 10
    · rw [if_pos h]
      simp only [List.cons_append, List.nil_append, takeDigits,
        List.length_cons, List.length_nil]
      rw [if_pos (by omega : 48 ≤ 48 + n ∧ 48 + n ≤ 57)]
      norm_num
    · rw [if_neg h, List.append_assoc]
      rw [ih (n / 10) (Nat.div_lt_self (by omega) (by omega)) acc
        ([48 + n % 10] ++ rest)]
      simp only [List.cons_append, List.nil_append, takeDigits]
      rw [if_pos (by omega : 48 ≤ 48 + n % 10 ∧ 48 + n % 10 ≤ 57)]
      congr 1
      rw [List.length_append, List.length_cons, List.length_nil,
        pow_add, pow_one]
      have hdm := Nat.div_add_mod n 10
      ring_nf
      omega

/-- `takeDigits` stops at a non-digit continuation. -/
theorem takeDigits_stop (a : Nat) (rest : List Nat) (h : numSafe rest) :
    takeDigits a rest = (a, rest) := by
  cases rest with
  | nil => rfl
  | cons c r =>
    simp only [numSafe] at h
    simp [takeDigits, if_neg h.1]

/-- A `numSafe` continuation starts no fraction or exponent. -/
theorem fracExpHead_numSafe (rest : List Nat) (h : numSafe rest) :
    fracExpHead rest = false := by
  cases rest with
  | nil => rfl
  | cons c r =>
    simp only [numSafe] at h
    simp [fracExpHead, h.2.1, h.2.2.1, h.2.2.2]

/-- Parsing the printed digits of `n` returns `n`. -/
theorem parseUNum_natDigits (n : Nat) (rest : List Nat) (h : numSafe rest) :
    parseUNum (natDigits n ++ rest) = some (n, rest) := by
  obtain ⟨c, r, hcr, h48, h57, hz⟩ := natDigits_head n
  by_cases h0 : n = 0
  · subst h0
    rw [show natDigits 0 = [48] by rw [natDigits]; norm_num]
    simp [parseUNum, fracExpHead_numSafe rest h]
  · have hc48 : c ≠ 48 := hz (by omega)
    have htake : takeDigits 0 (natDigits n ++ rest) = (n, rest) := by
      rw [takeDigits_natDigits n 0 rest]
      simpa using takeDigits_stop n rest h
    rw [hcr] at htake ⊢
    simp only [List.cons_append] at htake ⊢
    rw [parseUNum, if_neg (by omega : ¬c = 48),
      if_pos (by omega : 49 ≤ c ∧ c ≤ 57)]
    simp only [htake]
    rw [fracExpHead_numSafe rest h]
    rfl

/-- Parsing the printed form of a Python integer returns it. -/
theorem parseNum_intDumps (i : Int) (rest : List Nat) (h : numSafe rest) :
    parseNum (intDumps i ++ rest) = some (i, rest) := by
  by_cases hi : i < 0
  · rw [intDumps, if_pos hi]
    simp only [List.cons_append, parseNum,
      parseUNum_natDigits i.natAbs rest h]
    have : -((i.natAbs : Int)) = i := by omega
    rw [this]
  · rw [intDumps, if_neg hi]
    obtain ⟨c, r, hcr, h48, h57, hz⟩ := natDigits_head i.natAbs
    have hnum := parseUNum_natDigits i.natAbs rest h
    rw [hcr] at hnum ⊢
    simp only [List.cons_append] at hnum ⊢
    rw [parseNum]
    · rw [hnum]
      have hna : ((i.natAbs : Int)) = i := by omega
      simp only [hna]
    · intro rest1 heq
      simp only [List.cons.injEq] at heq
      omega

/-! ## String escaping and parsing -/

/-- `hexDigitVal` inverts `hexChar` on nibbles. -/
theorem hexDigitVal_hexChar : ∀ k < 16, hexDigitVal (hexChar k) = some k := by
  decide

/-- `hexVal4` inverts `hex4` below `2 ^ 16`. -/
theorem hexVal4_hex4 (n : Nat) (hn : n < 65536) :
    hexVal4 (hexChar (n / 4096 % 16)) (hexChar (n / 256 % 16))
      (hexChar (n / 16 % 16)) (hexChar (n % 16)) = some n := by
  have h1 := hexDigitVal_hexChar (n / 4096 % 16) (Nat.mod_lt _ (by omega))
  have h2 := hexDigitVal_hexChar (n / 256 % 16) (Nat.mod_lt _ (by omega))
  have h3 := hexDigitVal_hexChar (n / 16 % 16) (Nat.mod_lt _ (by omega))
  have h4 := hexDigitVal_hexChar (n % 16) (Nat.mod_lt _ (by omega))
  simp only [hexVal4, h1, h2, h3, h4, Option.some.injEq]
  omega

/-- One-step unfolding of `escapeStr`. -/
theorem escapeStr_cons (c : Nat) (t : List Nat) :
    escapeStr (c :: t) = escapeChar c ++ escapeStr t := by
  simp [escapeStr]

set_option maxHeartbeats 2000000 in
/-- Escaping a character yields at least one character. -/
theorem escapeChar_length_pos (c : Nat) : 1 ≤ (escapeChar c).length := by
  rw [escapeChar]
  split_ifs <;> simp [hex4]

/-- Escaping never shortens a string. -/
theorem escapeStr_length_ge (s : List Nat) :
    s.length ≤ (escapeStr s).length := by
  induction s with
  | nil => simp [escapeStr]
  | cons c t ih =>
    rw [escapeStr_cons, List.length_append]
    have := escapeChar_length_pos c
    simp only [List.length_cons]
    omega

/-- `parseStrAux` at a closing quote. -/
theorem parseStrAux_quote (fuel : Nat) (s : List Nat) :
    parseStrAux (fuel + 1) (34 :: s) = some ([], s) := by
  rw [parseStrAux, if_pos rfl]

/-- `parseStrAux` at a raw (unescaped, non-control) character. -/
theorem parseStrAux_raw (fuel c : Nat) (s : List Nat)
    (h34 : c ≠ 34) (h92 : c ≠ 92) (hc : ¬c < 32) :
    parseStrAux (fuel + 1) (c :: s) =
      (parseStrAux fuel s).map (fun p => (c :: p.1, p.2)) := by
  rw [parseStrAux, if_neg h34, if_neg h92, if_neg hc]

/-- `parseStrAux` at a backslash defers to `parseEsc`. -/
theorem parseStrAux_backslash (fuel : Nat) (s : List Nat) :
    parseStrAux (fuel + 1) (92 :: s) = parseEsc (parseStrAux fuel) s := by
  rw [parseStrAux, if_neg (by omega : ¬(92 : Nat) = 34), if_pos rfl]

/-- `parseStrAux` at a two-character escape. -/
theorem parseStrAux_esc (fuel e u : Nat) (s : List Nat)
    (he : e ≠ 117) (hu : unescCh e = some u) :
    parseStrAux (fuel + 1) (92 :: e :: s) =
      (parseStrAux fuel s).map (fun p => (u :: p.1, p.2)) := by
  rw [parseStrAux_backslash]
  simp [parseEsc, he, hu]

/-- `parseStrAux` at a `\uXXXX` escape that is not a high surrogate. -/
theorem parseStrAux_u (fuel a b c d n : Nat) (s : List Nat)
    (hv : hexVal4 a b c d = some n) (hns : ¬(55296 ≤ n ∧ n < 56320)) :
    parseStrAux (fuel + 1) (92 :: 117 :: a :: b :: c :: d :: s) =
      (parseStrAux fuel s).map (fun p => (n :: p.1, p.2)) := by
  rw [parseStrAux_backslash]
  simp [parseEsc, hv, hns]

/-- `parseStrAux` at a high-surrogate escape followed by a low-surrogate
escape: the pair combines into one astral code point. -/
theorem parseStrAux_u_pair (fuel a b c d a2 b2 c2 d2 n m : Nat)
    (s : List Nat)
    (hv : hexVal4 a b c d = some n) (hs : 55296 ≤ n ∧ n < 56320)
    (hv2 : hexVal4 a2 b2 c2 d2 = some m) (hs2 : 56320 ≤ m ∧ m < 57344) :
    parseStrAux (fuel + 1)
        (92 :: 117 :: a :: b :: c :: d :: 92 :: 117 :: a2 :: b2 :: c2 :: d2 :: s) =
      (parseStrAux fuel s).map
        (fun p => ((65536 + (n - 55296) * 1024 + (m - 56320)) :: p.1, p.2)) := by
  rw [parseStrAux_backslash]
  simp [parseEsc, parseHighSurr, hv, hs, hv2, hs2]

/-- Unescaping inverts `json.dumps` escaping: parsing the escaped body of
a scalar-valued string followed by the closing quote returns the string,
for any fuel exceeding its length. -/
theorem parseStrAux_escape (s : List Nat)
    (hwf : ∀ c ∈ s, validScalar c = true) :
    ∀ fuel rest, s.length < fuel →
      parseStrAux fuel (escapeStr s ++ 34 :: rest) = some (s, rest) := by
  induction s with
  | nil =>
    intro fuel rest hf
    match fuel, hf with
    | fuel + 1, _ =>
      show parseStrAux (fuel + 1) (escapeStr [] ++ 34 :: rest) = _
      rw [show escapeStr [] = [] by rfl, List.nil_append, parseStrAux_quote]
  | cons c t ih =>
    intro fuel rest hf
    have hc := hwf c (by simp)
    have hwt : ∀ x ∈ t, validScalar x = true := fun x hx => hwf x (by simp [hx])
    match fuel, hf with
    | fuel + 1, hf =>
      have hft : t.length < fuel := by
        simp only [List.length_cons] at hf
        omega
      have hih := ih hwt fuel rest hft
      rw [escapeStr_cons, List.append_assoc]
      by_cases e34 : c = 34
      · subst e34
        rw [show escapeChar 34 = [92, 34] by norm_num [escapeChar],
          List.cons_append, List.cons_append, List.nil_append,
          parseStrAux_esc fuel 34 34 _ (by omega) (by norm_num [unescCh]),
          hih]
        rfl
      · by_cases e92 : c = 92
        · subst e92
          rw [show escapeChar 92 = [92, 92] by norm_num [escapeChar],
            List.cons_append, List.cons_append, List.nil_append,
            parseStrAux_esc fuel 92 92 _ (by omega) (by norm_num [unescCh]),
            hih]
          rfl
        · by_cases e8 : c = 8
          · subst e8
            rw [show escapeChar 8 = [92, 98] by norm_num [escapeChar],
              List.cons_append, List.cons_append, List.nil_append,
              parseStrAux_esc fuel 98 8 _ (by omega) (by norm_num [unescCh]),
              hih]
            rfl
          · by_cases e9 : c = 9
            · subst e9
              rw [show escapeChar 9 = [92, 116] by norm_num [escapeChar],
                List.cons_append, List.cons_append, List.nil_append,
                parseStrAux_esc fuel 116 9 _ (by omega)
                  (by norm_num [unescCh]),
                hih]
              rfl
            · by_cases e10 : c = 10
              · subst e10
                rw [show escapeChar 10 = [92, 110] by norm_num [escapeChar],
                  List.cons_append, List.cons_append, List.nil_append,
                  parseStrAux_esc fuel 110 10 _ (by omega)
                    (by norm_num [unescCh]),
                  hih]
                rfl
              · by_cases e12 : c = 12
                · subst e12
                  rw [show escapeChar 12 = [92, 102] by norm_num [escapeChar],
                    List.cons_append, List.cons_append, List.nil_append,
                    parseStrAux_esc fuel 102 12 _ (by omega)
                      (by norm_num [unescCh]),
                    hih]
                  rfl
                · by_cases e13 : c = 13
                  · subst e13
                    rw [show escapeChar 13 = [92, 114] by norm_num [escapeChar],
                      List.cons_append, List.cons_append, List.nil_append,
                      parseStrAux_esc fuel 114 13 _ (by omega)
                        (by norm_num [unescCh]),
                      hih]
                    rfl
                  · by_cases elo : c < 32
                    · have hesc : escapeChar c = 92 :: 117 :: hex4 c := by
                        rw [escapeChar, if_neg e34, if_neg e92, if_neg e8,
                          if_neg e9, if_neg e10, if_neg e12, if_neg e13,
                          if_pos elo]
                      rw [hesc]
                      simp only [hex4, List.cons_append, List.nil_append]
                      rw [parseStrAux_u fuel _ _ _ _ c _
                        (hexVal4_hex4 c (by omega)) (by omega), hih]
                      rfl
                    · by_cases easc : c < 127
                      · have hesc : escapeChar c = [c] := by
                          rw [escapeChar, if_neg e34, if_neg e92, if_neg e8,
                            if_neg e9, if_neg e10, if_neg e12, if_neg e13,
                            if_neg elo, if_pos easc]
                        rw [hesc, List.cons_append, List.nil_append,
                          parseStrAux_raw fuel c _ e34 e92 elo, hih]
                        rfl
                      · have hvs : c < 55296 ∨ (57344 ≤ c ∧ c < 1114112) := by
                          simp only [validScalar, Bool.or_eq_true,
                            Bool.and_eq_true, decide_eq_true_eq] at hc
                          exact hc
                        by_cases ebmp : c < 65536
                        · have hesc : escapeChar c = 92 :: 117 :: hex4 c := by
                            rw [escapeChar, if_neg e34, if_neg e92, if_neg e8,
                              if_neg e9, if_neg e10, if_neg e12, if_neg e13,
                              if_neg elo, if_neg easc, if_pos ebmp]
                          rw [hesc]
                          simp only [hex4, List.cons_append, List.nil_append]
                          rw [parseStrAux_u fuel _ _ _ _ c _
                            (hexVal4_hex4 c (by omega)) (by omega), hih]
                          rfl
                        · have hesc : escapeChar c =
                              (92 :: 117 :: hex4 (55296 + (c - 65536) / 1024)) ++
                                92 :: 117 :: hex4 (56320 + (c - 65536) % 1024) := by
                            rw [escapeChar, if_neg e34, if_neg e92, if_neg e8,
                              if_neg e9, if_neg e10, if_neg e12, if_neg e13,
                              if_neg elo, if_neg easc, if_neg ebmp]
                          have hcomb : 65536 +
                              (55296 + (c - 65536) / 1024 - 55296) * 1024 +
                              (56320 + (c - 65536) % 1024 - 56320) = c := by
                            omega
                          rw [hesc]
                          simp only [hex4, List.cons_append, List.nil_append,
                            List.append_assoc]
                          rw [parseStrAux_u_pair fuel _ _ _ _ _ _ _ _
                            (55296 + (c - 65536) / 1024)
                            (56320 + (c - 65536) % 1024) _
                            (hexVal4_hex4 _ (by omega)) (by omega)
                            (hexVal4_hex4 _ (by omega)) (by omega), hih]
                          simp [hcomb]
                          omega

/-! ## Parser stepping stones -/

/-- `skipWs` leaves a non-whitespace head alone. -/
theorem skipWs_nonws (c : Nat) (r : List Nat)
    (h : ¬(c = 32 ∨ c = 9 ∨ c = 10 ∨ c = 13)) : skipWs (c :: r) = c :: r := by
  rw [skipWs, if_neg h]

/-- `skipWs` drops a leading space. -/
theorem skipWs_space (r : List Nat) : skipWs (32 :: r) = skipWs r := by
  rw [skipWs, if_pos (by omega)]

/-- `parseVal` ignores a leading space. -/
theorem parseVal_space (fuel : Nat) (s : List Nat) :
    parseVal fuel (32 :: s) = parseVal fuel s := by
  cases fuel with
  | zero => rfl
  | succ fuel => rw [parseVal, parseVal, skipWs_space]

/-- `parseItems` ignores a leading space. -/
theorem parseItems_space (fuel : Nat) (s : List Nat) :
    parseItems fuel (32 :: s) = parseItems fuel s := by
  cases fuel with
  | zero => rfl
  | succ fuel => rw [parseItems, parseItems, parseVal_space]

/-- `parseMembers` ignores a leading space. -/
theorem parseMembers_space (fuel : Nat) (s : List Nat) :
    parseMembers fuel (32 :: s) = parseMembers fuel s := by
  cases fuel with
  | zero => rfl
  | succ fuel => rw [parseMembers, parseMembers, skipWs_space]

/-- `parseVal` at `null`. -/
theorem parseVal_null (fuel : Nat) (s0 r : List Nat)
    (h : skipWs s0 = 110 :: 117 :: 108 :: 108 :: r) :
    parseVal (fuel + 1) s0 = some (.null, r) := by
  rw [parseVal, h]
  norm_num

/-- `parseVal` at `true`. -/
theorem parseVal_true (fuel : Nat) (s0 r : List Nat)
    (h : skipWs s0 = 116 :: 114 :: 117 :: 101 :: r) :
    parseVal (fuel + 1) s0 = some (.bool true, r) := by
  rw [parseVal, h]
  norm_num

/-- `parseVal` at `false`. -/
theorem parseVal_false (fuel : Nat) (s0 r : List Nat)
    (h : skipWs s0 = 102 :: 97 :: 108 :: 115 :: 101 :: r) :
    parseVal (fuel + 1) s0 = some (.bool false, r) := by
  rw [parseVal, h]
  norm_num

/-- `parseVal` at a string. -/
theorem parseVal_str (fuel : Nat) (s0 r : List Nat)
    (h : skipWs s0 = 34 :: r) :
    parseVal (fuel + 1) s0 =
      (parseStr r).map (fun p => (JValue.str p.1, p.2)) := by
  rw [parseVal, h]
  norm_num
  cases parseStr r with
  | none => rfl
  | some p => rfl

/-- `parseVal` at an empty array. -/
theorem parseVal_arr_empty (fuel : Nat) (s0 r1 r : List Nat)
    (h : skipWs s0 = 91 :: r1) (h2 : skipWs r1 = 93 :: r) :
    parseVal (fuel + 1) s0 = some (.arr [], r) := by
  rw [parseVal, h]
  norm_num
  rw [h2]

/-- `parseVal` at a nonempty array. -/
theorem parseVal_arr (fuel : Nat) (s0 r1 r2 : List Nat) (c : Nat)
    (h : skipWs s0 = 91 :: r1) (h2 : skipWs r1 = c :: r2) (hc : c ≠ 93) :
    parseVal (fuel + 1) s0 =
      (parseItems fuel (c :: r2)).map (fun p => (JValue.arr p.1, p.2)) := by
  rw [parseVal, h]
  norm_num
  rw [h2]
  split
  · next r heq =>
    simp only [List.cons.injEq] at heq
    exact absurd heq.1 hc
  · cases parseItems fuel (c :: r2) with
    | none => rfl
    | some p => rfl

/-- `parseVal` at an empty object. -/
theorem parseVal_obj_empty (fuel : Nat) (s0 r1 r : List Nat)
    (h : skipWs s0 = 123 :: r1) (h2 : skipWs r1 = 125 :: r) :
    parseVal (fuel + 1) s0 = some (.obj [], r) := by
  rw [parseVal, h]
  norm_num
  rw [h2]

/-- `parseVal` at a nonempty object. -/
theorem parseVal_obj (fuel : Nat) (s0 r1 r2 : List Nat) (c : Nat)
    (h : skipWs s0 = 123 :: r1) (h2 : skipWs r1 = c :: r2) (hc : c ≠ 125) :
    parseVal (fuel + 1) s0 =
      (parseMembers fuel (c :: r2)).map
        (fun p => (JValue.obj (pyDict p.1), p.2)) := by
  rw [parseVal, h]
  norm_num
  rw [h2]
  split
  · next r heq =>
    simp only [List.cons.injEq] at heq
    exact absurd heq.1 hc
  · cases parseMembers fuel (c :: r2) with
    | none => rfl
    | some p => rfl

/-- `parseVal` at a number. -/
theorem parseVal_num (fuel : Nat) (s0 r : List Nat) (c : Nat)
    (h : skipWs s0 = c :: r)
    (hc : c = 45 ∨ (48 ≤ c ∧ c ≤ 57)) :
    parseVal (fuel + 1) s0 =
      (parseNum (c :: r)).map (fun p => (JValue.int p.1, p.2)) := by
  have h110 : ¬c = 110 := by omega
  have h116 : ¬c = 116 := by omega
  have h102 : ¬c = 102 := by omega
  have h34x : ¬c = 34 := by omega
  have h91x : ¬c = 91 := by omega
  have h123x : ¬c = 123 := by omega
  rw [parseVal]
  simp only [h, if_neg h110, if_neg h116, if_neg h102, if_neg h34x,
    if_neg h91x, if_neg h123x]
  cases parseNum (c :: r) with
  | none => rfl
  | some p => rfl

/-- `parseItems` when another element follows. -/
theorem parseItems_step (fuel : Nat) (s r r2 : List Nat) (v : JValue)
    (h : parseVal fuel s = some (v, r)) (h2 : skipWs r = 44 :: r2) :
    parseItems (fuel + 1) s =
      (parseItems fuel r2).map (fun p => (v :: p.1, p.2)) := by
  rw [parseItems]
  simp only [h, h2]
  cases parseItems fuel r2 with
  | none => rfl
  | some p => rfl

/-- `parseItems` at the last element. -/
theorem parseItems_last (fuel : Nat) (s r r2 : List Nat) (v : JValue)
    (h : parseVal fuel s = some (v, r)) (h2 : skipWs r = 93 :: r2) :
    parseItems (fuel + 1) s = some ([v], r2) := by
  rw [parseItems]
  simp only [h, h2]

/-- `parseMembers` when another member follows. -/
theorem parseMembers_step (fuel : Nat) (s r r1 r2 r3 r4 : List Nat)
    (k : List Nat) (v : JValue)
    (h : skipWs s = 34 :: r) (hk : parseStr r = some (k, r1))
    (h1 : skipWs r1 = 58 :: r2) (hv : parseVal fuel r2 = some (v, r3))
    (h3 : skipWs r3 = 44 :: r4) :
    parseMembers (fuel + 1) s =
      (parseMembers fuel r4).map (fun p => ((k, v) :: p.1, p.2)) := by
  rw [parseMembers]
  simp only [h, hk, h1, hv, h3]
  cases parseMembers fuel r4 with
  | none => rfl
  | some p => rfl

/-- `parseMembers` at the last member. -/
theorem parseMembers_last (fuel : Nat) (s r r1 r2 r3 r4 : List Nat)
    (k : List Nat) (v : JValue)
    (h : skipWs s = 34 :: r) (hk : parseStr r = some (k, r1))
    (h1 : skipWs r1 = 58 :: r2) (hv : parseVal fuel r2 = some (v, r3))
    (h3 : skipWs r3 = 125 :: r4) :
    parseMembers (fuel + 1) s = some ([(k, v)], r4) := by
  rw [parseMembers]
  simp only [h, hk, h1, hv, h3]

/-! ## Shape facts about dumped values -/

/-- Unfolding for a dumped array's elements. -/
theorem dumpsArr_cons (v : JValue) (t : List JValue) :
    dumpsArr (v :: t) =
      dumpsV v ++ (if t.isEmpty then [] else [44, 32]) ++ dumpsArr t := by
  rw [dumpsArr]

/-- Unfolding for a dumped object's members. -/
theorem dumpsObj_cons (k : List Nat) (v : JValue)
    (t : List (List Nat × JValue)) :
    dumpsObj ((k, v) :: t) =
      (dumpsStr k ++ 58 :: 32 :: dumpsV v) ++
        (if t.isEmpty then [] else [44, 32]) ++ dumpsObj t := by
  rw [dumpsObj]

/-- Every dumped value starts with one of the value-opening characters:
a literal letter, a quote, a bracket, a brace, a minus sign or a digit. -/
theorem dumpsV_head (v : JValue) :
    ∃ c r, dumpsV v = c :: r ∧
      (c = 110 ∨ c = 116 ∨ c = 102 ∨ c = 34 ∨ c = 91 ∨ c = 123 ∨ c = 45 ∨
        (48 ≤ c ∧ c ≤ 57)) := by
  cases v with
  | null =>
    refine ⟨110, [117, 108, 108], ?_, by omega⟩
    rw [dumpsV]
  | bool b =>
    cases b with
    | false =>
      refine ⟨102, [97, 108, 115, 101], ?_, by omega⟩
      rw [dumpsV]
    | true =>
      refine ⟨116, [114, 117, 101], ?_, by omega⟩
      rw [dumpsV]
  | int n =>
    rw [dumpsV]
    by_cases hn : n < 0
    · rw [intDumps, if_pos hn]
      exact ⟨45, natDigits n.natAbs, rfl, by omega⟩
    · rw [intDumps, if_neg hn]
      obtain ⟨c, r, hcr, h1, h2, -⟩ := natDigits_head n.natAbs
      exact ⟨c, r, hcr, by omega⟩
  | str s =>
    refine ⟨34, escapeStr s ++ [34], ?_, by omega⟩
    rw [dumpsV]
    rfl
  | arr l =>
    refine ⟨91, dumpsArr l ++ [93], ?_, by omega⟩
    rw [dumpsV]
    simp
  | obj l =>
    refine ⟨123, dumpsObj l ++ [125], ?_, by omega⟩
    rw [dumpsV]
    simp

/-- A dumped value is never empty. -/
theorem dumpsV_length_pos (v : JValue) : 1 ≤ (dumpsV v).length := by
  obtain ⟨c, r, hcr, -⟩ := dumpsV_head v
  simp [hcr]

/-! ## Python dict reconstruction -/

/-- Inserting a fresh key appends. -/
theorem dictInsert_notmem (acc : List (List Nat × JValue)) (k : List Nat)
    (v : JValue) (h : k ∉ acc.map Prod.fst) :
    dictInsert acc k v = acc ++ [(k, v)] := by
  induction acc with
  | nil => rfl
  | cons p t ih =>
    obtain ⟨k0, v0⟩ := p
    simp only [List.map_cons, List.mem_cons] at h
    push_neg at h
    rw [dictInsert, if_neg (fun hh => h.1 hh.symm), ih h.2]
    rfl

/-- Folding `dictInsert` over members with keys disjoint from the
accumulator and mutually distinct appends them in order. -/
theorem pyDict_eq_aux (l : List (List Nat × JValue)) :
    ∀ acc : List (List Nat × JValue),
      (∀ k ∈ l.map Prod.fst, k ∉ acc.map Prod.fst) →
      (l.map Prod.fst).Nodup →
      l.foldl (fun d p => dictInsert d p.1 p.2) acc = acc ++ l := by
  induction l with
  | nil => intro acc _ _; simp
  | cons p t ih =>
    intro acc hd hn
    obtain ⟨k, v⟩ := p
    simp only [List.foldl_cons]
    rw [dictInsert_notmem acc k v (hd k (by simp))]
    simp only [List.map_cons, List.nodup_cons] at hn
    rw [ih (acc ++ [(k, v)]) ?_ hn.2]
    · simp
    · intro k2 hk2
      simp only [List.map_append, List.mem_append, List.map_cons,
        List.map_nil, List.mem_cons, List.not_mem_nil]
      push_neg
      refine ⟨fun hin => hd k2 (by simp [hk2]) hin, ?_, fun hf => hf⟩
      intro hk2k
      exact hn.1 (hk2k ▸ hk2)

/-- Rebuilding a Python dict from members with distinct keys is the
identity. -/
theorem pyDict_eq (l : List (List Nat × JValue))
    (hn : (l.map Prod.fst).Nodup) : pyDict l = l := by
  unfold pyDict
  rw [pyDict_eq_aux l [] (by simp) hn]
  simp

/-- A printed integer starts with a minus sign or a digit. -/
theorem intDumps_head (n : Int) :
    ∃ c cs, intDumps n = c :: cs ∧ (c = 45 ∨ (48 ≤ c ∧ c ≤ 57)) := by
  by_cases hn : n < 0
  · rw [intDumps, if_pos hn]
    exact ⟨45, natDigits n.natAbs, rfl, by omega⟩
  · rw [intDumps, if_neg hn]
    obtain ⟨c, r, hcr, h1, h2, -⟩ := natDigits_head n.natAbs
    exact ⟨c, r, hcr, by omega⟩

/-- A dumped nonempty array body starts with a value-opening character. -/
theorem dumpsArr_head (v : JValue) (t : List JValue) :
    ∃ c cs, dumpsArr (v :: t) = c :: cs ∧
      (c = 110 ∨ c = 116 ∨ c = 102 ∨ c = 34 ∨ c = 91 ∨ c = 123 ∨ c = 45 ∨
        (48 ≤ c ∧ c ≤ 57)) := by
  obtain ⟨c, cs, hcr, hc⟩ := dumpsV_head v
  refine ⟨c, cs ++ ((if t.isEmpty then [] else [44, 32]) ++ dumpsArr t),
    ?_, hc⟩
  rw [dumpsArr_cons, hcr]
  simp

/-- Parsing a dumped string body (with closing quote) returns it. -/
theorem parseStr_escape (s : List Nat)
    (hwf : ∀ c ∈ s, validScalar c = true) (rest : List Nat) :
    parseStr (escapeStr s ++ 34 :: rest) = some (s, rest) := by
  unfold parseStr
  refine parseStrAux_escape s hwf _ rest ?_
  have := escapeStr_length_ge s
  simp only [List.length_append, List.length_cons]
  omega

/-- Round trip of the fuel-indexed parser: parsing a dumped well-formed
value (resp. nonempty array body, nonempty object body) consumes exactly
the dumped text and returns the value, for sufficient fuel. -/
theorem parse_dumps (fuel : Nat) :
    (∀ v rest, WFJ v → (dumpsV v).length < fuel → numSafe rest →
      parseVal fuel (dumpsV v ++ rest) = some (v, rest)) ∧
    (∀ l rest, l ≠ [] → (∀ x ∈ l, WFJ x) →
      (dumpsArr l).length + 1 < fuel →
      parseItems fuel (dumpsArr l ++ 93 :: rest) = some (l, rest)) ∧
    (∀ l rest, l ≠ [] →
      (∀ p ∈ l, ∀ c ∈ p.1, validScalar c = true) →
      (∀ p ∈ l, WFJ p.2) →
      (dumpsObj l).length + 1 < fuel →
      parseMembers fuel (dumpsObj l ++ 125 :: rest) = some (l, rest)) := by
  induction fuel with
  | zero =>
    refine ⟨fun v rest _ hlen _ => absurd hlen (by omega),
      fun l rest _ _ hlen => absurd hlen (by omega),
      fun l rest _ _ _ hlen => absurd hlen (by omega)⟩
  | succ fuel ih =>
    obtain ⟨ih1, ih2, ih3⟩ := ih
    refine ⟨?_, ?_, ?_⟩
    · intro v rest hwf hlen hns
      cases hwf with
      | null =>
        rw [show dumpsV .null = [110, 117, 108, 108] by rw [dumpsV]]
        exact parseVal_null fuel _ rest (by simp [List.cons_append, skipWs])
      | bool b =>
        cases b with
        | true =>
          rw [show dumpsV (.bool true) = [116, 114, 117, 101] by
            rw [dumpsV]]
          exact parseVal_true fuel _ rest
            (by simp [List.cons_append, skipWs])
        | false =>
          rw [show dumpsV (.bool false) = [102, 97, 108, 115, 101] by
            rw [dumpsV]]
          exact parseVal_false fuel _ rest
            (by simp [List.cons_append, skipWs])
      | int n =>
        rw [show dumpsV (.int n) = intDumps n by rw [dumpsV]]
        obtain ⟨c, cs, hcr, hc⟩ := intDumps_head n
        rw [hcr, List.cons_append,
          parseVal_num fuel _ _ c (skipWs_nonws c _ (by omega)) hc,
          ← List.cons_append, ← hcr, parseNum_intDumps n rest hns]
        rfl
      | str s hs =>
        rw [show dumpsV (.str s) = 34 :: (escapeStr s ++ [34]) by
          rw [dumpsV]; rfl]
        simp only [List.cons_append, List.append_assoc, List.nil_append]
        rw [parseVal_str fuel _ _ (skipWs_nonws 34 _ (by omega)),
          parseStr_escape s hs rest]
        rfl
      | arr l hx =>
        cases l with
        | nil =>
          rw [show dumpsV (.arr []) = [91, 93] by rw [dumpsV, dumpsArr]; rfl]
          exact parseVal_arr_empty fuel ([91, 93] ++ rest) (93 :: rest) rest
            (skipWs_nonws 91 (93 :: rest) (by omega))
            (skipWs_nonws 93 rest (by omega))
        | cons v t =>
          have hdv : dumpsV (.arr (v :: t)) =
              91 :: (dumpsArr (v :: t) ++ [93]) := by
            rw [dumpsV, List.cons_append]
          rw [hdv]
          simp only [List.cons_append, List.append_assoc, List.nil_append]
          obtain ⟨c, cs, hcr, hc⟩ := dumpsArr_head v t
          have hlen2 : (dumpsArr (v :: t)).length + 1 < fuel := by
            rw [hdv] at hlen
            simp only [List.length_cons, List.length_append] at hlen
            omega
          rw [parseVal_arr fuel _ _ _ c (skipWs_nonws 91 _ (by omega))
              (by rw [hcr, List.cons_append]
                  exact skipWs_nonws c _ (by omega))
              (by omega),
            ← List.cons_append, ← hcr,
            ih2 (v :: t) rest (by simp) hx hlen2]
          rfl
      | obj l hk hs hv =>
        cases l with
        | nil =>
          rw [show dumpsV (.obj []) = [123, 125] by rw [dumpsV, dumpsObj]; rfl]
          exact parseVal_obj_empty fuel ([123, 125] ++ rest) (125 :: rest) rest
            (skipWs_nonws 123 (125 :: rest) (by omega))
            (skipWs_nonws 125 rest (by omega))
        | cons p t =>
          obtain ⟨k, v⟩ := p
          have hdv : dumpsV (.obj ((k, v) :: t)) =
              123 :: (dumpsObj ((k, v) :: t) ++ [125]) := by
            rw [dumpsV, List.cons_append]
          rw [hdv]
          simp only [List.cons_append, List.append_assoc, List.nil_append]
          have hlen2 : (dumpsObj ((k, v) :: t)).length + 1 < fuel := by
            rw [hdv] at hlen
            simp only [List.length_cons, List.length_append] at hlen
            omega
          have hcs : dumpsObj ((k, v) :: t) = 34 ::
              (escapeStr k ++ 34 :: 58 :: 32 ::
                (dumpsV v ++ ((if t.isEmpty = true then [] else [44, 32]) ++
                  dumpsObj t))) := by
            rw [dumpsObj_cons]
            simp [dumpsStr]
          rw [parseVal_obj fuel _ _ _ 34 (skipWs_nonws 123 _ (by omega))
              (by rw [hcs, List.cons_append]
                  exact skipWs_nonws 34 _ (by omega))
              (by omega),
            ← List.cons_append, ← hcs,
            ih3 ((k, v) :: t) rest (by simp) hs hv hlen2]
          simp only [Option.map]
          rw [pyDict_eq _ hk]
    · intro l rest hne hwf hlen
      cases l with
      | nil => exact absurd rfl hne
      | cons v t =>
        by_cases ht : t = []
        · subst ht
          have harr : dumpsArr [v] = dumpsV v := by
            rw [dumpsArr_cons, dumpsArr]
            simp
          rw [harr] at hlen ⊢
          have hp : parseVal fuel (dumpsV v ++ 93 :: rest) =
              some (v, 93 :: rest) :=
            ih1 v (93 :: rest) (hwf v (by simp)) (by omega)
              (by simp [numSafe])
          exact parseItems_last fuel _ _ rest v hp
            (skipWs_nonws 93 rest (by omega))
        · have harr : dumpsArr (v :: t) =
              dumpsV v ++ (44 :: 32 :: dumpsArr t) := by
            rw [dumpsArr_cons, if_neg (by simpa [List.isEmpty_iff] using ht)]
            simp
          rw [harr] at hlen ⊢
          simp only [List.length_append, List.length_cons] at hlen
          have hdvp := dumpsV_length_pos v
          simp only [List.append_assoc, List.cons_append]
          have hp : parseVal fuel
              (dumpsV v ++ (44 :: 32 :: (dumpsArr t ++ 93 :: rest))) =
              some (v, 44 :: 32 :: (dumpsArr t ++ 93 :: rest)) :=
            ih1 v _ (hwf v (by simp)) (by omega) (by simp [numSafe])
          rw [parseItems_step fuel _ _ _ v hp
              (skipWs_nonws 44 _ (by omega)),
            parseItems_space,
            ih2 t rest ht (fun x hx => hwf x (by simp [hx])) (by omega)]
          rfl
    · intro l rest hne hks hvs hlen
      cases l with
      | nil => exact absurd rfl hne
      | cons p t =>
        obtain ⟨k, v⟩ := p
        have hkwf : ∀ c ∈ k, validScalar c = true := hks (k, v) (by simp)
        have hvwf : WFJ v := hvs (k, v) (by simp)
        by_cases ht : t = []
        · subst ht
          have hobj : dumpsObj [(k, v)] = 34 ::
              (escapeStr k ++ 34 :: 58 :: 32 :: dumpsV v) := by
            rw [dumpsObj_cons, dumpsObj]
            simp [dumpsStr]
          rw [hobj] at hlen ⊢
          simp only [List.cons_append, List.append_assoc,
            List.length_cons, List.length_append] at hlen ⊢
          have hp : parseVal fuel (32 :: (dumpsV v ++ 125 :: rest)) =
              some (v, 125 :: rest) := by
            rw [parseVal_space]
            exact ih1 v (125 :: rest) hvwf (by omega) (by simp [numSafe])
          exact parseMembers_last fuel _ _ _ _ _ rest k v
            (skipWs_nonws 34 _ (by omega))
            (parseStr_escape k hkwf (58 :: 32 :: (dumpsV v ++ 125 :: rest)))
            (skipWs_nonws 58 _ (by omega)) hp
            (skipWs_nonws 125 rest (by omega))
        · have hobj : dumpsObj ((k, v) :: t) = 34 ::
              (escapeStr k ++ 34 :: 58 :: 32 ::
                (dumpsV v ++ (44 :: 32 :: dumpsObj t))) := by
            rw [dumpsObj_cons, if_neg (by simpa [List.isEmpty_iff] using ht)]
            simp [dumpsStr]
          rw [hobj] at hlen ⊢
          simp only [List.cons_append, List.append_assoc,
            List.length_cons, List.length_append] at hlen ⊢
          have hdvp := dumpsV_length_pos v
          have hp : parseVal fuel
              (32 :: (dumpsV v ++ (44 :: 32 :: (dumpsObj t ++ 125 :: rest)))) =
              some (v, 44 :: 32 :: (dumpsObj t ++ 125 :: rest)) := by
            rw [parseVal_space]
            exact ih1 v _ hvwf (by omega) (by simp [numSafe])
          rw [parseMembers_step fuel _ _ _ _ _ _ k v
              (skipWs_nonws 34 _ (by omega))
              (parseStr_escape k hkwf
                (58 :: 32 :: (dumpsV v ++ (44 :: 32 :: (dumpsObj t ++ 125 :: rest)))))
              (skipWs_nonws 58 _ (by omega)) hp
              (skipWs_nonws 44 _ (by omega)),
            parseMembers_space,
            ih3 t rest ht (fun x hx => hks x (by simp [hx]))
              (fun x hx => hvs x (by simp [hx])) (by omega)]
          rfl

/-- C4: for every well-formed JSON value (distinct object keys, scalar
code points), decoding the bound (dumped) text returns the value, under
both the dict-shaped and the list-shaped codec. -/
theorem c4_round_trip (v : JValue) (hwf : WFJ v) :
    process_result_value dictEmpty (process_bind_param (some v)) = some v ∧
    process_result_value listEmpty (process_bind_param (some v)) = some v := by
  have h := (parse_dumps ((dumpsV v).length + 1)).1 v [] hwf (by omega)
    trivial
  rw [List.append_nil] at h
  have hload : jsonLoads (dumpsV v) = some v := by
    unfold jsonLoads
    rw [h]
    rfl
  exact ⟨hload, hload⟩

/-- C4 witness: the spec's concrete mapping round-trips. -/
theorem c4_round_trip_witness :
    WFJ jsonExample ∧
    process_result_value dictEmpty (process_bind_param (some jsonExample)) =
      some jsonExample ∧
    process_result_value listEmpty (process_bind_param (some jsonExample)) =
      some jsonExample := by
  have hwf : WFJ jsonExample := by
    show WFJ (.obj [(pyS (r"a"), .int 1),
      (pyS (r"b"), .arr [.int 1, .int 2, .int 3])])
    refine WFJ.obj _ (by decide) (by decide) ?_
    intro p hp
    simp only [List.mem_cons, List.not_mem_nil, or_false] at hp
    rcases hp with h | h
    · subst h
      exact WFJ.int 1
    · subst h
      refine WFJ.arr _ ?_
      intro x hx
      simp only [List.mem_cons, List.not_mem_nil, or_false] at hx
      rcases hx with h | h | h <;> subst h <;> exact WFJ.int _
  exact ⟨hwf, (c4_round_trip jsonExample hwf).1,
    (c4_round_trip jsonExample hwf).2⟩
